import Mathlib

/-!
A verification development for the call-evaluation core of a partial evaluator
for ECMAScript (the `CallExpression` evaluator of prepack).

The development shallowly embeds `src/partial-evaluators/CallExpression.js`:
the three functions of that file (the default-exported evaluator, `EvaluateCall`
and `callBothFunctionsAndJoinTheirEffects`) are translated into Lean functions
over an explicit realm state.  Collaborators that live outside that file
(sub-expression evaluation, environment resolution, concrete invocation,
`PerformEval`, tail-position classification) are parameters gathered in a
`Collab` structure.  The effects-join engine and the realm effect primitives
also live outside the file; they are modelled from the specification
(sections 4.2, 4.4, 5 and 6) and marked as such in their doc comments.
-/

namespace PrepackCall

/-- The value types relevant to the evaluator: `booleanT` (fork conditions),
`functionT` (callable values), `topT` (the most general type `Value`),
`undefinedT`, and a catch-all for other runtime types. -/
inductive Ty where
  | undefinedT
  | booleanT
  | functionT
  | topT
  | otherT
deriving DecidableEq

/-- Runtime values: `undef` is the undefined intrinsic, `intrinsicEval` is the
realm's intrinsic `eval` function (`SameValue` with it is identity of this
token), `concreteFn`/`concreteData` are other fully concrete values, and
`abstract kind ty args` is an `AbstractValue` with its optional kind, its type
and its argument list (a conditional value has kind `"conditional"` and args
`[condition, consequent, alternate]`). -/
inductive Value where
  | undef
  | intrinsicEval
  | concreteFn (id : Nat)
  | concreteData (id : Nat)
  | abstract (kind : Option String) (ty : Ty) (args : List Value)

/-- `getType()` of a value. Concrete functions (including the intrinsic eval)
have function type; abstract values carry their type. -/
def Value.getType : Value → Ty
  | .undef => .undefinedT
  | .intrinsicEval => .functionT
  | .concreteFn _ => .functionT
  | .concreteData _ => .otherT
  | .abstract _ ty _ => ty

/-- `instanceof AbstractValue`. -/
def Value.isAbstract : Value → Bool
  | .abstract _ _ _ => true
  | _ => false

/-- `SameValue(realm, v, realm.intrinsics.eval)`: for function objects this is
object identity, so it holds exactly for the intrinsic eval token. -/
def Value.isIntrinsicEval : Value → Bool
  | .intrinsicEval => true
  | _ => false

/-- `Value.isTypeCompatibleWith(ty, FunctionValue)`: only the function type is
compatible with `FunctionValue`. -/
def typeCompatFunction : Ty → Bool
  | .functionT => true
  | _ => false

mutual
/-- Structural equality of values, used by the join engine to decide whether
the two branches agree on a stored value. -/
def Value.beq : Value → Value → Bool
  | .undef, .undef => true
  | .intrinsicEval, .intrinsicEval => true
  | .concreteFn a, .concreteFn b => a == b
  | .concreteData a, .concreteData b => a == b
  | .abstract k1 t1 a1, .abstract k2 t2 a2 =>
      k1 == k2 && t1 == t2 && Value.beqList a1 a2
  | _, _ => false

/-- Pointwise structural equality of value lists. -/
def Value.beqList : List Value → List Value → Bool
  | [], [] => true
  | v :: vs, w :: ws => Value.beq v w && Value.beqList vs ws
  | _, _ => false
end

/-- Residual AST expression nodes; `call` is what `t.callExpression` builds. -/
inductive Node where
  | ident (name : String)
  | lit (n : Nat)
  | call (callee : Node) (args : List Node)
  | other (id : Nat)

/-- Residual statements; `condStmt` is the single conditional residual
statement the join engine emits around the two branches' generated code. -/
inductive Stmt where
  | exprStmt (e : Node)
  | condStmt (cond : Value) (thenBranch elseBranch : List Stmt)
  | other (id : Nat)

mutual
/-- Completions: `simpleNormal`, the abrupt kinds (`throwC`, `returnC`,
`breakC`, `continueC`, and `joinedAbrupt`, the join of two abrupt completions
under a condition), and `possiblyNormal`, a forked point carrying the
normal-path value, the captured normal-path effects, the fork condition,
which side of the fork is still pending abruptly, the pending abrupt
completion and that branch's effects (tracked for later resumption). -/
inductive Completion where
  | simpleNormal (v : Value)
  | throwC (v : Value)
  | returnC (v : Value)
  | breakC (target : Option String)
  | continueC (target : Option String)
  | joinedAbrupt (cond : Value) (consequent alternate : Completion)
  | possiblyNormal (value : Value) (savedEffects : Effects) (cond : Value)
      (pendingOnTrue : Bool) (pendingAbrupt : Completion) (pendingEffects : Effects)

/-- Effects: a replayable snapshot of everything a speculative sub-evaluation
did — its result completion, the residual statements it generated, the
bindings and properties it wrote, and the objects it created. -/
inductive Effects where
  | mk (result : Completion) (generator : List Stmt)
      (modifiedBindings : List (Nat × Value))
      (modifiedProperties : List ((Nat × String) × Value))
      (createdObjects : List Nat)
end

/-- The result completion of an effects record. -/
def Effects.result : Effects → Completion
  | .mk r _ _ _ _ => r

/-- The generated residual statements of an effects record. -/
def Effects.generator : Effects → List Stmt
  | .mk _ g _ _ _ => g

/-- The modified bindings of an effects record. -/
def Effects.modifiedBindings : Effects → List (Nat × Value)
  | .mk _ _ b _ _ => b

/-- The modified properties of an effects record. -/
def Effects.modifiedProperties : Effects → List ((Nat × String) × Value)
  | .mk _ _ _ p _ => p

/-- The created objects of an effects record. -/
def Effects.createdObjects : Effects → List Nat
  | .mk _ _ _ _ c => c

/-- `instanceof AbruptCompletion` (the joined-abrupt class is a subclass of
the abrupt class). -/
def Completion.isAbrupt : Completion → Bool
  | .throwC _ | .returnC _ | .breakC _ | .continueC _ | .joinedAbrupt _ _ _ => true
  | _ => false

/-- `instanceof PossiblyNormalCompletion`. -/
def Completion.isPossiblyNormal : Completion → Bool
  | .possiblyNormal _ _ _ _ _ _ => true
  | _ => false

/-- The `value` field of a completion (the payload of value-carrying kinds;
`undef` for the target-carrying abrupt kinds, which store no value). -/
def Completion.value : Completion → Value
  | .simpleNormal v => v
  | .throwC v => v
  | .returnC v => v
  | .breakC _ => .undef
  | .continueC _ => .undef
  | .joinedAbrupt _ _ _ => .undef
  | .possiblyNormal v _ _ _ _ _ => v

/-- An environment record, exposing its `WithBaseObject()` result
(`undef` when there is none). -/
structure EnvRec where
  id : Nat
  withBase : Value

/-- The base of a reference: an environment record or an object/value base. -/
inductive RefBase where
  | env (rec : EnvRec)
  | obj (v : Value)

/-- A reference: base, referenced name and strictness flag. -/
structure Reference where
  base : RefBase
  referencedName : String
  strict : Bool

/-- `Environment.IsPropertyReference`: true exactly when the base is a value
(an object base), not an environment record. -/
def Reference.isPropertyReference (r : Reference) : Bool :=
  match r.base with
  | .obj _ => true
  | .env _ => false

/-- The `ref` flowing into `EvaluateCall`: a plain value or a reference. -/
inductive RefOrValue where
  | value (v : Value)
  | reference (r : Reference)

/-- Host-level failures: invariant violations and introspection errors are
fatal programming errors; `hostExn` is a non-Completion exception raised by a
collaborator. -/
inductive HostErr where
  | invariantFail
  | introspection
  | hostExn (id : Nat)

/-- Outcome of an evaluation step: a result, or a propagating host failure. -/
inductive EvOut (α : Type) where
  | ok (a : α)
  | fatal (e : HostErr)

/-- A `Completion | Value` union, the result shape of the evaluators. -/
inductive CompOrValue where
  | comp (c : Completion)
  | val (v : Value)

/-- Wrap a `Completion | Value` as a completion (values become simple normal
completions), as `evaluateForEffects` does when recording a result. -/
def toCompletion : CompOrValue → Completion
  | .comp c => c
  | .val v => .simpleNormal v

/-- What the concrete-invocation collaborator can do: return a completion or
value, throw a language-level `Completion` as a host exception, or throw a
non-Completion host exception. -/
inductive InvokeResult where
  | returns (r : CompOrValue)
  | throwsCompletion (c : Completion)
  | throwsHost (e : HostErr)

/-- Result of `partiallyEvaluateCompletion` on the callee: a completion, a
value, or a reference. -/
inductive PEResult where
  | completion (c : Completion)
  | value (v : Value)
  | reference (r : Reference)

/-- Result of the dereferencing variant used on arguments: a completion or a
value, never a reference. -/
inductive PEDResult where
  | completion (c : Completion)
  | value (v : Value)

/-- The ambient realm state threaded through evaluation: the two location
fields (`nextContextLocation`, written by `setNextExecutionContextLocation`,
and `currentLocation`, written directly inside `EvaluateCall`), the saved
completion and registered open forks of the pending-completion machinery, and
the ambient effect trackers (generated residual code, modified bindings and
properties, created objects). -/
structure RealmState where
  nextContextLocation : Option Nat
  currentLocation : Option Nat
  savedCompletion : Option Completion
  openForks : List Completion
  generator : List Stmt
  modifiedBindings : List (Nat × Value)
  modifiedProperties : List ((Nat × String) × Value)
  createdObjects : List Nat

/-- Association-list lookup. -/
def alistLookup {K V : Type} [DecidableEq K] : List (K × V) → K → Option V
  | [], _ => none
  | (k, v) :: rest, k' => if k = k' then some v else alistLookup rest k'

/-- Association-list update (replace an existing key or append). -/
def alistSet {K V : Type} [DecidableEq K] : List (K × V) → K → V → List (K × V)
  | [], k, v => [(k, v)]
  | (k', v') :: rest, k, v =>
      if k' = k then (k, v) :: rest else (k', v') :: alistSet rest k v

/-- Fold one association list of updates over a base list. -/
def alistUpdateAll {K V : Type} [DecidableEq K]
    (base upd : List (K × V)) : List (K × V) :=
  upd.foldl (fun acc kv => alistSet acc kv.1 kv.2) base

/-! ## The effects-join engine

Modelled from the spec: the join engine (`Join` singleton) is a component of
the core whose code is not part of the embedded source file; the definitions
below follow the operation contracts of spec section 4.2. -/

/-- Modelled from the spec: the per-location value join of `forkJoin` — if
both branches agree on the value keep it, otherwise store
`Abstract("conditional", cond, v1, v2)` (typed with the common type of the two
values when they agree on it, and with the most general type otherwise). -/
def joinValues (cond v1 v2 : Value) : Value :=
  if Value.beq v1 v2 then v1
  else
    .abstract (some "conditional")
      (if v1.getType = v2.getType then v1.getType else .topT)
      [cond, v1, v2]

/-- Modelled from the spec: the binding/property map join of `forkJoin` — a
location touched by both branches keeps the agreed value or becomes a
conditional abstract value; a location touched by only one branch keeps that
branch's value. -/
def joinTouched {K : Type} [DecidableEq K] (cond : Value)
    (m1 m2 : List (K × Value)) : List (K × Value) :=
  (m1.map fun kv =>
    match alistLookup m2 kv.1 with
    | some v2 => (kv.1, joinValues cond kv.2 v2)
    | none => kv)
  ++ m2.filter fun kv => (alistLookup m1 kv.1).isNone

/-- Modelled from the spec: append one effects record after another — the
later record's result stands, generated code and created objects are
concatenated, and the later writes override the earlier ones. -/
def appendEffects (e1 e2 : Effects) : Effects :=
  .mk e2.result (e1.generator ++ e2.generator)
    (alistUpdateAll e1.modifiedBindings e2.modifiedBindings)
    (alistUpdateAll e1.modifiedProperties e2.modifiedProperties)
    (e1.createdObjects ++ e2.createdObjects)

/-- Modelled from the spec: `forkJoin` (`Join.joinForkOrChoose`).  Both
branches normal: the generated code becomes one conditional residual
statement, touched locations are joined per location, created objects are
united, and the result is the normal join of the two values.  Exactly one
branch abrupt: the result is a `possiblyNormal` completion capturing the
still-open branch's effects, while the abrupt branch's completion and effects
are tracked separately inside that completion and are **not** included in the
joined effects.  Both branches abrupt: the joined abrupt completion with both
effect sets merged under the condition. -/
def joinForkOrChoose (cond : Value) (e1 e2 : Effects) : Effects :=
  if e1.result.isAbrupt && e2.result.isAbrupt then
    .mk (.joinedAbrupt cond e1.result e2.result)
      [.condStmt cond e1.generator e2.generator]
      (joinTouched cond e1.modifiedBindings e2.modifiedBindings)
      (joinTouched cond e1.modifiedProperties e2.modifiedProperties)
      (e1.createdObjects ++ e2.createdObjects)
  else if e1.result.isAbrupt then
    .mk (.possiblyNormal e2.result.value e2 cond true e1.result e1)
      e2.generator e2.modifiedBindings e2.modifiedProperties e2.createdObjects
  else if e2.result.isAbrupt then
    .mk (.possiblyNormal e1.result.value e1 cond false e2.result e2)
      e1.generator e1.modifiedBindings e1.modifiedProperties e1.createdObjects
  else
    .mk (.simpleNormal (joinValues cond e1.result.value e2.result.value))
      [.condStmt cond e1.generator e2.generator]
      (joinTouched cond e1.modifiedBindings e2.modifiedBindings)
      (joinTouched cond e1.modifiedProperties e2.modifiedProperties)
      (e1.createdObjects ++ e2.createdObjects)

/-- Replace the value carried by a normal-ish completion (used when a
composition step substitutes a freshly produced value). -/
def setCompletionValue (c : Completion) (v : Value) : Completion :=
  match c with
  | .simpleNormal _ => .simpleNormal v
  | .possiblyNormal _ e cond b p pe => .possiblyNormal v e cond b p pe
  | c => c

/-- Modelled from the spec: compose two possibly-normal completions — the
composite carries the later fork's data with the earlier captured effects
appended before the later ones. -/
def composePossiblyNormalCompletions (c1 c2 : Completion) : Completion :=
  match c1, c2 with
  | .possiblyNormal _ e1 _ _ _ _, .possiblyNormal v2 e2 cond2 b2 p2 pe2 =>
      .possiblyNormal v2 (appendEffects e1 e2) cond2 b2 p2 pe2
  | _, _ => c2

/-- Modelled from the spec: `sequentialCompose` (`Join.composeNormalCompletions`)
— with no prior fork and no new fork the fresh value is returned directly;
with exactly one open fork that fork continues, carrying the fresh value;
with both, the two forks are composed. -/
def composeNormalCompletions (prior next : Option Completion) (v : Value) :
    CompOrValue :=
  match prior, next with
  | none, none => .val v
  | none, some c => .comp (setCompletionValue c v)
  | some c, none => .comp (setCompletionValue c v)
  | some c1, some c2 =>
      .comp (setCompletionValue (composePossiblyNormalCompletions c1 c2) v)

/-- Modelled from the spec: `unbundle` (`Join.unbundleNormalCompletion`) —
split a non-abrupt result into the still-open prior fork (if any) and the
freshly produced value.  Abrupt inputs are a caller bug and never reach this
operation in the evaluator; they map to no fork and the undefined value. -/
def unbundleNormalCompletion : CompOrValue → Option Completion × Value
  | .val v => (none, v)
  | .comp (.simpleNormal v) => (none, v)
  | .comp (.possiblyNormal v e cond b p pe) =>
      (some (.possiblyNormal v e cond b p pe), v)
  | .comp _ => (none, .undef)

/-! ## Realm effect primitives

Modelled from the spec: the effect primitives on the evaluation context
(spec sections 5 and 6) — effect capture is a scoped transaction whose
sub-evaluation is invisible to ambient state until the effects are explicitly
applied. -/

/-- Modelled from the spec: `applyEffects` — commit an effects record to
ambient state exactly once: append its generated code and created objects and
fold its binding/property writes over the ambient trackers. -/
def applyEffects (e : Effects) (s : RealmState) : RealmState :=
  { s with
    generator := s.generator ++ e.generator
    modifiedBindings := alistUpdateAll s.modifiedBindings e.modifiedBindings
    modifiedProperties := alistUpdateAll s.modifiedProperties e.modifiedProperties
    createdObjects := s.createdObjects ++ e.createdObjects }

/-- The state a captured sub-evaluation starts from: the ambient state with
fresh, empty effect trackers. -/
def clearTrackers (s : RealmState) : RealmState :=
  { s with generator := [], modifiedBindings := [], modifiedProperties := [],
           createdObjects := [] }

/-- Modelled from the spec: `evaluateForEffects` — run a thunk as a scoped
transaction: it executes against the ambient state with fresh trackers, its
result and tracked mutations are returned as an effects record, and the
ambient state is fully restored, so the run is isolated and nothing it did is
visible until the effects are applied.  A host failure inside the thunk
propagates. -/
def evaluateForEffects
    (thunk : RealmState → EvOut CompOrValue × RealmState) (s : RealmState) :
    EvOut Effects × RealmState :=
  match thunk (clearTrackers s) with
  | (.fatal e, _) => (.fatal e, s)
  | (.ok r, s1) =>
      (.ok (.mk (toCompletion r) s1.generator s1.modifiedBindings
              s1.modifiedProperties s1.createdObjects), s)

/-- Modelled from the spec: `captureEffects` — register an open fork on the
context. -/
def captureEffects (c : Completion) (s : RealmState) : RealmState :=
  { s with openForks := c :: s.openForks }

/-- Modelled from the spec: `composeWithSavedCompletion` — merge a
possibly-normal completion with the outer open fork: when none is saved the
completion is saved and registered as the open fork, otherwise the saved
completion is composed with the new one; evaluation continues with the
completion's normal-path value (spec 4.4 steps 3 and 5). -/
def composeWithSavedCompletion (c : Completion) (s : RealmState) :
    Value × RealmState :=
  match s.savedCompletion with
  | none => (c.value, { captureEffects c s with savedCompletion := some c })
  | some sc =>
      (c.value,
       { s with savedCompletion := some (composePossiblyNormalCompletions sc c) })

/-- Modelled from the spec: `stopCaptureAndJoin`
(`Join.stopEffectCaptureJoinApplyAndReturnCompletion`) — a later step turned
abrupt while a fork is still open: the pending normal-path effects are applied
so they are not silently dropped, and the abrupt completion is returned joined
with the fork's pending abrupt completion under the fork condition. -/
def stopEffectCaptureJoinApplyAndReturnCompletion
    (pn abrupt : Completion) (s : RealmState) : Completion × RealmState :=
  match pn with
  | .possiblyNormal _ eff cond onTrue pend _ =>
      (if onTrue then .joinedAbrupt cond pend abrupt
       else .joinedAbrupt cond abrupt pend,
       applyEffects eff s)
  | _ => (abrupt, s)

/-- `AbstractValue.createFromType(realm, T)`: an unconstrained abstract value
of the given type (no kind, no arguments). -/
def createFromType (ty : Ty) : Value :=
  .abstract none ty []

/-! ## External collaborators (spec section 6) -/

/-- The consumed collaborators, bundled (the lexical environment and realm
arguments of the source are absorbed into these closures): sub-expression
evaluation of the callee and of arguments, environment resolution
(`GetValue` on references), `GetThisValue`, tail-position classification, the
concrete-invocation collaborator `EvaluateDirectCallWithArgList`
(strictness, ref, func, this-value, argument list, tail-call flag), and the
eval-text collaborator `PerformEval` (text, caller strictness, direct flag). -/
structure Collab where
  peCallee : Node → Bool → RealmState → PEResult × Node × List Stmt × RealmState
  peArg : Node → Bool → RealmState → PEDResult × Node × List Stmt × RealmState
  getValueRef : Reference → RealmState → Value
  getThisValue : Reference → Value
  isInTailPosition : Node → Bool
  evaluateDirectCall : Bool → RefOrValue → Value → Value → List Value → Bool →
      RealmState → InvokeResult × RealmState
  performEval : Value → Bool → Bool → RealmState → CompOrValue × RealmState

/-- `Environment.GetValue(realm, ref)`: a value resolves to itself, a
reference is resolved by the environment collaborator. -/
def getValue (C : Collab) (rv : RefOrValue) (s : RealmState) : Value :=
  match rv with
  | .value v => v
  | .reference r => C.getValueRef r s

/-- A call-expression AST node: callee, arguments and source location. -/
structure CallAst where
  callee : Node
  arguments : List Node
  loc : Option Nat

/-- The residual call node `t.callExpression(calleeAst, partialArgs)` built
from the original callee and argument nodes. -/
def CallAst.toNode (ast : CallAst) : Node :=
  .call ast.callee ast.arguments

/-- Map the concrete-invocation collaborator's outcome through the
`try`/`catch` at the end of `EvaluateCall`: ordinary returns pass through, a
thrown language-level `Completion` is returned as the completion, and any
other host exception is re-raised. -/
def invokeOutcome : InvokeResult × RealmState → EvOut CompOrValue × RealmState
  | (.returns r, s) => (.ok r, s)
  | (.throwsCompletion c, s) => (.ok (.comp c), s)
  | (.throwsHost e, s) => (.fatal e, s)

/-! ## The call-semantics evaluator (`EvaluateCall`, source lines 147-234) -/

/-- Steps 4-8 of `EvaluateCall`: resolve the this-value (property reference →
`GetThisValue(ref)`; environment-record reference → the record's
`WithBaseObject()`; plain value → undefined), classify the tail position,
record the call-site location on the context (`realm.currentLocation =
ast.loc`), and invoke the concrete function, catching thrown completions. -/
def EvaluateCallOrdinary (C : Collab) (ref : RefOrValue) (func : Value)
    (ast : CallAst) (argList : List Value) (strictCode : Bool)
    (s : RealmState) : EvOut CompOrValue × RealmState :=
  let thisValue :=
    match ref with
    | .reference r =>
        match r.base with
        | .obj _ => C.getThisValue r
        | .env envRec => envRec.withBase
    | .value _ => Value.undef
  let tailCall := C.isInTailPosition (ast.toNode)
  invokeOutcome
    (C.evaluateDirectCall strictCode ref func thisValue argList tailCall
      { s with currentLocation := ast.loc })

/-- Is `ref` a non-property reference whose referenced name is `"eval"`
(the guard of the direct-eval special case, source lines 170-174)? -/
def isDirectEvalRef : RefOrValue → Bool
  | .reference r => !r.isPropertyReference && r.referencedName == "eval"
  | .value _ => false

mutual
/-- `EvaluateCall` (source lines 147-234).  An abstract callee of function
type dispatches to the conditional-call join when its kind is
`"conditional"` and otherwise short-circuits to an unconstrained abstract
value of the most general type (no call is performed; the source's TODO notes
the abstract function's result type is not consulted).  Any other abstract
callee is a fatal introspection error (`throwIfNotConcrete`).  A concrete
callee first goes through the direct-eval special case: a non-property
reference named `"eval"` resolving to the intrinsic eval returns undefined on
zero arguments and otherwise delegates the first argument to `PerformEval`
with the caller's strictness and `direct = true`; everything else is an
ordinary call. -/
def EvaluateCall (C : Collab) (ref : RefOrValue) (func : Value)
    (ast : CallAst) (argList : List Value) (strictCode : Bool)
    (s : RealmState) : EvOut CompOrValue × RealmState :=
  match func with
  | .abstract kind ty args =>
      if typeCompatFunction ty then
        if kind = some "conditional" then
          callBothFunctionsAndJoinTheirEffects C args ast argList strictCode s
        else (.ok (.val (createFromType .topT)), s)
      else (.fatal .introspection, s)
  | func =>
      if isDirectEvalRef ref && func.isIntrinsicEval then
        if argList.isEmpty then (.ok (.val .undef), s)
        else
          match C.performEval (argList.headD .undef) strictCode true s with
          | (r, s1) => (.ok r, s1)
      else EvaluateCallOrdinary C ref func ast argList strictCode s

/-- `callBothFunctionsAndJoinTheirEffects` (source lines 95-145): check the
invariants on the conditional callee's pieces, evaluate the call of each arm
in isolation under effect capture (each arm is passed as both `ref` and
`func`), join the two effect records under the condition, register a
possibly-normal join on the pending-completion machinery and continue with
its value, apply the joined effects to ambient state, unwrap a simple normal
completion to its value, and return an abrupt completion or a value. -/
def callBothFunctionsAndJoinTheirEffects (C : Collab) (funcs : List Value)
    (ast : CallAst) (argVals : List Value) (strictCode : Bool)
    (s : RealmState) : EvOut CompOrValue × RealmState :=
  match funcs with
  | cond :: func1 :: func2 :: _ =>
      if cond.isAbstract && cond.getType == Ty.booleanT
          && typeCompatFunction func1.getType
          && typeCompatFunction func2.getType then
        match evaluateForEffects
            (fun s0 => EvaluateCall C (.value func1) func1 ast argVals strictCode s0)
            s with
        | (.fatal e, s1) => (.fatal e, s1)
        | (.ok e1, s1) =>
            match evaluateForEffects
                (fun s0 =>
                  EvaluateCall C (.value func2) func2 ast argVals strictCode s0)
                s1 with
            | (.fatal e, s2) => (.fatal e, s2)
            | (.ok e2, s2) =>
                let joinedEffects :=
                  joinForkOrChoose cond
                    (.mk e1.result e1.generator e1.modifiedBindings
                      e1.modifiedProperties e1.createdObjects)
                    (.mk e2.result e2.generator e2.modifiedBindings
                      e2.modifiedProperties e2.createdObjects)
                if joinedEffects.result.isPossiblyNormal then
                  match composeWithSavedCompletion joinedEffects.result s2 with
                  | (v, s3) => (.ok (.val v), applyEffects joinedEffects s3)
                else
                  let s4 := applyEffects joinedEffects s2
                  match joinedEffects.result with
                  | .simpleNormal v => (.ok (.val v), s4)
                  | c =>
                      if c.isAbrupt then (.ok (.comp c), s4)
                      else (.fatal .invariantFail, s4)
      else (.fatal .invariantFail, s)
  | _ => (.fatal .invariantFail, s)
end

/-- The conditional-call dispatcher with the two branch evaluations run in
the opposite order: the `func2` arm is captured first and the `func1` arm
second, while the join still pairs the condition with the `func1` effects
first.  Used to state that branch evaluation order does not change the
result. -/
def callBothFunctionsAndJoinTheirEffectsSwapped (C : Collab)
    (funcs : List Value) (ast : CallAst) (argVals : List Value)
    (strictCode : Bool) (s : RealmState) : EvOut CompOrValue × RealmState :=
  match funcs with
  | cond :: func1 :: func2 :: _ =>
      if cond.isAbstract && cond.getType == Ty.booleanT
          && typeCompatFunction func1.getType
          && typeCompatFunction func2.getType then
        match evaluateForEffects
            (fun s0 => EvaluateCall C (.value func2) func2 ast argVals strictCode s0)
            s with
        | (.fatal e, s1) => (.fatal e, s1)
        | (.ok e2, s1) =>
            match evaluateForEffects
                (fun s0 =>
                  EvaluateCall C (.value func1) func1 ast argVals strictCode s0)
                s1 with
            | (.fatal e, s2) => (.fatal e, s2)
            | (.ok e1, s2) =>
                let joinedEffects :=
                  joinForkOrChoose cond
                    (.mk e1.result e1.generator e1.modifiedBindings
                      e1.modifiedProperties e1.createdObjects)
                    (.mk e2.result e2.generator e2.modifiedBindings
                      e2.modifiedProperties e2.createdObjects)
                if joinedEffects.result.isPossiblyNormal then
                  match composeWithSavedCompletion joinedEffects.result s2 with
                  | (v, s3) => (.ok (.val v), applyEffects joinedEffects s3)
                else
                  let s4 := applyEffects joinedEffects s2
                  match joinedEffects.result with
                  | .simpleNormal v => (.ok (.val v), s4)
                  | c =>
                      if c.isAbrupt then (.ok (.comp c), s4)
                      else (.fatal .invariantFail, s4)
      else (.fatal .invariantFail, s)
  | _ => (.fatal .invariantFail, s)

/-! ## The top-level CallExpression evaluator (source lines 27-93) -/

/-- Outcome of the left-to-right argument loop (source lines 49-69): an
abrupt exit carrying the composed completion, the residual argument nodes
evaluated so far and the accumulated residual statements; a completed pass
carrying the pending fork, residual nodes, argument values and statements; or
a fatal invariant failure (an argument evaluation produced neither an abrupt
nor a possibly-normal completion nor a value). -/
inductive ArgsOut where
  | abruptOut (completion : Completion) (residArgs : List Node)
      (outStmts : List Stmt) (s : RealmState)
  | done (completion : Option Completion) (residArgs : List Node)
      (argVals : List Value) (outStmts : List Stmt) (s : RealmState)
  | fatalOut (e : HostErr) (s : RealmState)

/-- The argument loop of the top-level evaluator: each argument is partially
evaluated and dereferenced left to right, its residual statements and node
are appended first; an abrupt result is composed with the pending fork (via
the stop-capture join when a fork is open, taken directly otherwise) and
exits immediately; a possibly-normal result contributes its value and is
sequentially composed with the pending fork; a plain value is collected. -/
def evalArgs (C : Collab) (strictCode : Bool) (args : List Node)
    (outStmts : List Stmt) (residArgs : List Node) (argVals : List Value)
    (completion : Option Completion) (s : RealmState) : ArgsOut :=
  match args with
  | [] => .done completion residArgs argVals outStmts s
  | arg :: rest =>
      match C.peArg arg strictCode s with
      | (argValue, argAst, argStmts, s1) =>
        let outStmts1 := outStmts ++ argStmts
        let residArgs1 := residArgs ++ [argAst]
        match argValue with
        | .completion c =>
            if c.isAbrupt then
              match completion with
              | some pn =>
                  if pn.isPossiblyNormal then
                    match stopEffectCaptureJoinApplyAndReturnCompletion pn c s1 with
                    | (c2, s2) => .abruptOut c2 residArgs1 outStmts1 s2
                  else .abruptOut c residArgs1 outStmts1 s1
              | none => .abruptOut c residArgs1 outStmts1 s1
            else if c.isPossiblyNormal then
              let argVals1 := argVals ++ [c.value]
              let completion1 :=
                match completion with
                | some pn =>
                    if pn.isPossiblyNormal then
                      match composeNormalCompletions (some pn) (some c) c.value with
                      | .comp c2 => some c2
                      | .val v => some (.simpleNormal v)
                    else some c
                | none => some c
              evalArgs C strictCode rest outStmts1 residArgs1 argVals1 completion1 s1
            else .fatalOut .invariantFail s1
        | .value v =>
            evalArgs C strictCode rest outStmts1 residArgs1 (argVals ++ [v])
              completion s1

/-- The invariant of source line 84: the pending completion is either absent
or a possibly-normal completion. -/
def invariantOptPN : Option Completion → Bool
  | none => true
  | some c => c.isPossiblyNormal

/-- Source lines 81-89 for a non-abrupt call result: unbundle, check the
pending-completion invariant, sequentially compose, register a
possibly-normal composition for effect capture, and return. -/
def evalCallFinish (completion : Option Completion)
    (callResult : CompOrValue) (calleeAst : Node) (residArgs : List Node)
    (outStmts : List Stmt) (s : RealmState) :
    EvOut (CompOrValue × Node × List Stmt) × RealmState :=
  match unbundleNormalCompletion callResult with
  | (callCompletion, callValue) =>
    if invariantOptPN completion then
      match composeNormalCompletions completion callCompletion callValue with
      | .comp c =>
          if c.isPossiblyNormal then
            (.ok (.comp c, .call calleeAst residArgs, outStmts),
             captureEffects c s)
          else (.ok (.comp c, .call calleeAst residArgs, outStmts), s)
      | .val v => (.ok (.val v, .call calleeAst residArgs, outStmts), s)
    else (.fatal .invariantFail, s)

/-- The body of the `try` block around the delegated call (source lines
72-89): delegate to `EvaluateCall`; an abrupt call result is composed with
the pending fork and returned with the residual call node; otherwise the
result is unbundled against the pending fork, composed, registered for
capture when the composition is still possibly normal, and returned with the
residual call node and accumulated residual statements. -/
def evalCallTryBody (C : Collab) (ast : CallAst) (strictCode : Bool)
    (completion : Option Completion) (refv : RefOrValue) (func : Value)
    (calleeAst : Node) (residArgs : List Node) (argVals : List Value)
    (outStmts : List Stmt) (s : RealmState) :
    EvOut (CompOrValue × Node × List Stmt) × RealmState :=
  match EvaluateCall C refv func ast argVals strictCode s with
  | (.fatal e, s1) => (.fatal e, s1)
  | (.ok callResult, s1) =>
      match callResult with
      | .comp c =>
          if c.isAbrupt then
            match completion with
            | some pn =>
                if pn.isPossiblyNormal then
                  match stopEffectCaptureJoinApplyAndReturnCompletion pn c s1 with
                  | (c2, s2) =>
                      (.ok (.comp c2, .call calleeAst residArgs, outStmts), s2)
                else (.ok (.comp c, .call calleeAst residArgs, outStmts), s1)
            | none => (.ok (.comp c, .call calleeAst residArgs, outStmts), s1)
          else
            evalCallFinish completion callResult calleeAst residArgs outStmts s1
      | .val _ =>
          evalCallFinish completion callResult calleeAst residArgs outStmts s1

/-- The shared continuation of the top-level evaluator after the callee has
been partially evaluated (source lines 43-93): resolve the callee to a value,
run the argument loop, then record the call-site location via
`setNextExecutionContextLocation`, delegate to `EvaluateCall` inside a
`try`/`finally` that restores the recorded location on every exit path. -/
def evalCallRest (C : Collab) (ast : CallAst) (strictCode : Bool)
    (completion : Option Completion) (refv : RefOrValue) (calleeAst : Node)
    (calleeStmts : List Stmt) (s : RealmState) :
    EvOut (CompOrValue × Node × List Stmt) × RealmState :=
  let func := getValue C refv s
  match evalArgs C strictCode ast.arguments calleeStmts [] [] completion s with
  | .fatalOut e s2 => (.fatal e, s2)
  | .abruptOut c residArgs outStmts s2 =>
      (.ok (.comp c, .call calleeAst residArgs, outStmts), s2)
  | .done completion1 residArgs argVals outStmts s2 =>
      let previousLoc := s2.nextContextLocation
      match
        evalCallTryBody C ast strictCode completion1 refv func calleeAst
          residArgs argVals outStmts { s2 with nextContextLocation := ast.loc }
      with
      | (out, s4) => (out, { s4 with nextContextLocation := previousLoc })

/-- The default-exported CallExpression evaluator (source lines 27-93):
partially evaluate the callee; an abrupt callee propagates immediately with
the residual callee code and no argument is evaluated; a possibly-normal
callee is remembered as the pending fork and evaluation continues with its
value; a value or reference continues directly; any other callee completion
violates the invariant of source line 41. -/
def evalCallExpression (C : Collab) (ast : CallAst) (strictCode : Bool)
    (s : RealmState) : EvOut (CompOrValue × Node × List Stmt) × RealmState :=
  match C.peCallee ast.callee strictCode s with
  | (refR, calleeAst, calleeStmts, s1) =>
    match refR with
    | .completion c =>
        if c.isAbrupt then (.ok (.comp c, calleeAst, calleeStmts), s1)
        else if c.isPossiblyNormal then
          evalCallRest C ast strictCode (some c) (.value c.value) calleeAst
            calleeStmts s1
        else (.fatal .invariantFail, s1)
    | .value v =>
        evalCallRest C ast strictCode none (.value v) calleeAst calleeStmts s1
    | .reference r =>
        evalCallRest C ast strictCode none (.reference r) calleeAst calleeStmts s1

/-! ## Concrete fixtures used to instantiate the theorems -/

/-- A sample ambient realm state. -/
def sampleState : RealmState :=
  ⟨some 5, some 0, none, [], [], [], [], []⟩

/-- A sample collaborator bundle: the callee evaluates to the concrete
function `0` with its node unchanged and no residual statements, every
argument evaluates to the concrete datum `7`, references resolve to the
concrete function `1`, no call is in tail position, concrete invocation
returns the concrete datum `42`, and `PerformEval` returns the concrete
datum `9`. -/
def sampleCollab : Collab where
  peCallee := fun n _ s => (.value (.concreteFn 0), n, [], s)
  peArg := fun n _ s => (.value (.concreteData 7), n, [], s)
  getValueRef := fun _ _ => .concreteFn 1
  getThisValue := fun r => match r.base with | .obj v => v | .env e => e.withBase
  isInTailPosition := fun _ => false
  evaluateDirectCall := fun _ _ _ _ _ _ s => (.returns (.val (.concreteData 42)), s)
  performEval := fun _ _ _ s => (.val (.concreteData 9), s)

/-- A sample call expression `f(1)` at source location 1. -/
def sampleAst : CallAst := ⟨.ident "f", [.lit 1], some 1⟩

/-- An abstract boolean, used as a fork condition. -/
def sampleCond : Value := .abstract none .booleanT []

/-- A conditional callee `cond ? f10 : f11` over two concrete functions. -/
def condFn : Value :=
  .abstract (some "conditional") .functionT [sampleCond, .concreteFn 10, .concreteFn 11]

/-- A non-property reference named `eval` (base: an environment record with
no with-base object). -/
def evalRef : Reference := ⟨.env ⟨0, .undef⟩, "eval", false⟩

/-! ## Claim theorems -/

/-- Argument loop on arguments that all evaluate, without touching the state,
to plain values with unchanged nodes and no residual statements: the loop
completes, collecting the nodes and values in order and keeping the pending
fork, the accumulated statements and the state unchanged. -/
theorem evalArgs_values (C : Collab) (strict : Bool) (s : RealmState)
    (w : Node → Value) (nf : Node → Node) :
    ∀ args : List Node,
      (∀ a ∈ args, C.peArg a strict s = (.value (w a), nf a, [], s)) →
      ∀ (os : List Stmt) (ra : List Node) (av : List Value)
        (cp : Option Completion),
        evalArgs C strict args os ra av cp s =
          .done cp (ra ++ args.map nf) (av ++ args.map w) os s := by
  intro args
  induction args with
  | nil => intro _ os ra av cp; simp [evalArgs]
  | cons a rest ih =>
      intro h os ra av cp
      have ha := h a (by simp)
      have hrest : ∀ b ∈ rest, C.peArg b strict s = (.value (w b), nf b, [], s) :=
        fun b hb => h b (by simp [hb])
      simp only [evalArgs, ha]
      rw [ih hrest]
      simp

/-- C1: for every call expression whose callee and arguments all partially
evaluate to concrete values (with unchanged residual nodes, no residual
statements and no state change) and whose invocation completes without any
abrupt completion, the evaluator returns exactly the value produced by
directly invoking the function through the invocation collaborator, the
residual call node is the unchanged call expression, and the residual
statement list is empty (the ambient state is the invocation's, with the
recorded call-site location restored). -/
theorem evalCallExpression_fully_concrete
    (C : Collab) (ast : CallAst) (strict : Bool) (s : RealmState)
    (vf v : Value) (w : Node → Value) (sApp : RealmState)
    (hcallee : C.peCallee ast.callee strict s = (.value vf, ast.callee, [], s))
    (hvf : vf.isAbstract = false)
    (hargsConc : ∀ a ∈ ast.arguments, (w a).isAbstract = false)
    (hargs : ∀ a ∈ ast.arguments, C.peArg a strict s = (.value (w a), a, [], s))
    (hinvoke : C.evaluateDirectCall strict (.value vf) vf Value.undef
        (ast.arguments.map w) (C.isInTailPosition ast.toNode)
        { s with nextContextLocation := ast.loc, currentLocation := ast.loc }
      = (.returns (.val v), sApp)) :
    evalCallExpression C ast strict s =
      (.ok (.val v, ast.toNode, []),
       { sApp with nextContextLocation := s.nextContextLocation }) := by
  simp only [CallAst.toNode] at hinvoke ⊢
  simp only [evalCallExpression, hcallee]
  simp only [evalCallRest, getValue]
  rw [evalArgs_values C strict s w (fun a => a) ast.arguments hargs [] [] [] none]
  simp only [List.nil_append, List.map_id_fun, id]
  cases vf with
  | abstract k ty args => simp [Value.isAbstract] at hvf
  | _ =>
      simp only [evalCallTryBody, EvaluateCall, isDirectEvalRef, Bool.false_and,
        Value.isIntrinsicEval, Bool.and_false, Bool.false_eq_true, ↓reduceIte,
        EvaluateCallOrdinary, CallAst.toNode]
      rw [hinvoke]
      simp [invokeOutcome, evalCallFinish, unbundleNormalCompletion,
        invariantOptPN, composeNormalCompletions]

/-- C1 witness: the sample fixture instantiates the fully concrete call. -/
theorem evalCallExpression_fully_concrete_witness :
    evalCallExpression sampleCollab sampleAst false sampleState =
      (.ok (.val (.concreteData 42), .call (.ident "f") [.lit 1], []),
       { sampleState with currentLocation := some 1 }) := by
  have h := evalCallExpression_fully_concrete sampleCollab sampleAst false
    sampleState (.concreteFn 0) (.concreteData 42) (fun _ => .concreteData 7)
    { sampleState with nextContextLocation := some 1, currentLocation := some 1 }
    rfl rfl (fun a _ => rfl) (fun a _ => rfl) rfl
  simpa [sampleAst, CallAst.toNode, sampleState] using h

/-- C5: for every callee value that is abstract, of function type, and not of
kind `"conditional"`, `EvaluateCall` performs no call — the result is fixed
for every collaborator bundle and the state is unchanged — and returns the
unconstrained abstract value `createFromType topT`.  The only return type
declared for the call in the code is the most general type `Value` (`topT`
here); the source's TODO notes that a more precise result type from the
abstract function is not yet consulted. -/
theorem EvaluateCall_abstract_fallback (C : Collab) (ref : RefOrValue)
    (ast : CallAst) (argList : List Value) (strict : Bool) (s : RealmState)
    (kind : Option String) (ty : Ty) (args : List Value)
    (hty : typeCompatFunction ty = true) (hk : kind ≠ some "conditional") :
    EvaluateCall C ref (.abstract kind ty args) ast argList strict s =
      (.ok (.val (createFromType .topT)), s) := by
  simp only [EvaluateCall, hty, ↓reduceIte, if_neg hk]

/-- C5 witness: an unconditional abstract function callee short-circuits to
an unconstrained abstract value of the most general type. -/
theorem EvaluateCall_abstract_fallback_witness :
    EvaluateCall sampleCollab (.value (.abstract none .functionT []))
      (.abstract none .functionT []) sampleAst [] false sampleState =
      (.ok (.val (.abstract none .topT [])), sampleState) := by
  have h := EvaluateCall_abstract_fallback sampleCollab
    (.value (.abstract none .functionT [])) sampleAst [] false sampleState
    none .functionT [] rfl (by simp)
  simpa [createFromType] using h

/-- C4: for a call through a non-property reference named `"eval"`: when the
resolved function is exactly the realm's intrinsic eval, zero arguments yield
`undefined` without invoking the eval-text collaborator (the result and state
are fixed for every collaborator bundle), and at least one argument yields
exactly `PerformEval` applied to the first argument with the caller's
strictness and `direct = true`; when the resolved function is concrete but
not the intrinsic eval, the call proceeds as an ordinary function call. -/
theorem EvaluateCall_direct_eval (C : Collab) (ast : CallAst) (strict : Bool)
    (s : RealmState) (r : Reference)
    (hpr : r.isPropertyReference = false)
    (hname : r.referencedName = "eval") :
    (EvaluateCall C (.reference r) .intrinsicEval ast [] strict s =
        (.ok (.val .undef), s))
  ∧ (∀ (v : Value) (rest : List Value),
      EvaluateCall C (.reference r) .intrinsicEval ast (v :: rest) strict s =
        (.ok (C.performEval v strict true s).1, (C.performEval v strict true s).2))
  ∧ (∀ (func : Value) (argList : List Value),
      func.isAbstract = false → func.isIntrinsicEval = false →
      EvaluateCall C (.reference r) func ast argList strict s =
        EvaluateCallOrdinary C (.reference r) func ast argList strict s) := by
  refine ⟨?_, ?_, ?_⟩
  · simp [EvaluateCall, isDirectEvalRef, hpr, hname, Value.isIntrinsicEval]
  · intro v rest
    rcases hpe : C.performEval v strict true s with ⟨pr, ps⟩
    simp [EvaluateCall, isDirectEvalRef, hpr, hname, Value.isIntrinsicEval, hpe]
  · intro func argList habs hie
    cases func with
    | abstract k ty args => simp [Value.isAbstract] at habs
    | intrinsicEval => simp [Value.isIntrinsicEval] at hie
    | _ => simp [EvaluateCall, isDirectEvalRef, hpr, hname, Value.isIntrinsicEval]

/-- C4 witness: through the sample `eval` reference, the intrinsic eval with
no arguments yields undefined, with one argument delegates to the sample
`PerformEval` (yielding the concrete datum 9), and a concrete non-intrinsic
function proceeds as an ordinary call (yielding the invocation result 42). -/
theorem EvaluateCall_direct_eval_witness :
    EvaluateCall sampleCollab (.reference evalRef) .intrinsicEval sampleAst []
        false sampleState = (.ok (.val .undef), sampleState)
  ∧ EvaluateCall sampleCollab (.reference evalRef) .intrinsicEval sampleAst
        [.concreteData 3] false sampleState =
        (.ok (.val (.concreteData 9)), sampleState)
  ∧ EvaluateCall sampleCollab (.reference evalRef) (.concreteFn 1) sampleAst []
        false sampleState =
        (.ok (.val (.concreteData 42)),
         { sampleState with currentLocation := some 1 }) := by
  obtain ⟨h1, h2, h3⟩ :=
    EvaluateCall_direct_eval sampleCollab sampleAst false sampleState evalRef
      rfl rfl
  exact ⟨h1, by simpa using h2 (.concreteData 3) [],
    by simpa [EvaluateCallOrdinary, sampleCollab, invokeOutcome] using
      h3 (.concreteFn 1) [] rfl rfl⟩

/-- C7: this-value resolution for a concrete callee on the ordinary path:
a property reference passes `GetThisValue(ref)` as the this-value to the
invocation collaborator, an environment-record reference passes that record's
with-base object, and a plain value passes undefined. -/
theorem EvaluateCall_this_resolution (C : Collab) (ast : CallAst)
    (strict : Bool) :
    (∀ (r : Reference) (b func : Value) (argList : List Value) (s : RealmState),
      r.base = .obj b → func.isAbstract = false →
      EvaluateCall C (.reference r) func ast argList strict s =
        invokeOutcome (C.evaluateDirectCall strict (.reference r) func
          (C.getThisValue r) argList (C.isInTailPosition ast.toNode)
          { s with currentLocation := ast.loc }))
  ∧ (∀ (r : Reference) (envRec : EnvRec) (func : Value) (argList : List Value)
        (s : RealmState),
      r.base = .env envRec → func.isAbstract = false →
      (r.referencedName = "eval" → func.isIntrinsicEval = false) →
      EvaluateCall C (.reference r) func ast argList strict s =
        invokeOutcome (C.evaluateDirectCall strict (.reference r) func
          envRec.withBase argList (C.isInTailPosition ast.toNode)
          { s with currentLocation := ast.loc }))
  ∧ (∀ (v0 func : Value) (argList : List Value) (s : RealmState),
      func.isAbstract = false →
      EvaluateCall C (.value v0) func ast argList strict s =
        invokeOutcome (C.evaluateDirectCall strict (.value v0) func
          Value.undef argList (C.isInTailPosition ast.toNode)
          { s with currentLocation := ast.loc })) := by
  refine ⟨?_, ?_, ?_⟩
  · intro r b func argList s hbase habs
    cases func with
    | abstract k ty args => simp [Value.isAbstract] at habs
    | _ =>
        simp [EvaluateCall, isDirectEvalRef, Reference.isPropertyReference,
          hbase, EvaluateCallOrdinary]
  · intro r envRec func argList s hbase habs hev
    have hord : EvaluateCallOrdinary C (.reference r) func ast argList strict s =
        invokeOutcome (C.evaluateDirectCall strict (.reference r) func
          envRec.withBase argList (C.isInTailPosition ast.toNode)
          { s with currentLocation := ast.loc }) := by
      simp [EvaluateCallOrdinary, hbase]
    by_cases hname : r.referencedName = "eval"
    · cases func with
      | abstract k ty args => simp [Value.isAbstract] at habs
      | intrinsicEval => simp [Value.isIntrinsicEval] at hev; exact absurd hname hev
      | _ =>
          rw [← hord]
          simp [EvaluateCall, isDirectEvalRef, Value.isIntrinsicEval]
    · cases func with
      | abstract k ty args => simp [Value.isAbstract] at habs
      | _ =>
          rw [← hord]
          simp [EvaluateCall, isDirectEvalRef, Reference.isPropertyReference,
            hbase, hname]
  · intro v0 func argList s habs
    cases func with
    | abstract k ty args => simp [Value.isAbstract] at habs
    | _ => simp [EvaluateCall, isDirectEvalRef, EvaluateCallOrdinary]

/-- C7 witness: a property reference resolves this to its base object, an
environment-record reference to its with-base object, and a value callee to
undefined (observed through the sample invocation collaborator, which is
insensitive to the this-value, so the three calls all yield 42 at the states
predicted with this-values `obj 3`, `undef` and `undef` respectively). -/
theorem EvaluateCall_this_resolution_witness :
    EvaluateCall sampleCollab
        (.reference ⟨.obj (.concreteData 3), "m", false⟩) (.concreteFn 2)
        sampleAst [] false sampleState =
      invokeOutcome (sampleCollab.evaluateDirectCall false
        (.reference ⟨.obj (.concreteData 3), "m", false⟩) (.concreteFn 2)
        (.concreteData 3) [] false { sampleState with currentLocation := some 1 })
  ∧ EvaluateCall sampleCollab (.reference ⟨.env ⟨0, .undef⟩, "g", false⟩)
        (.concreteFn 2) sampleAst [] false sampleState =
      invokeOutcome (sampleCollab.evaluateDirectCall false
        (.reference ⟨.env ⟨0, .undef⟩, "g", false⟩) (.concreteFn 2)
        .undef [] false { sampleState with currentLocation := some 1 })
  ∧ EvaluateCall sampleCollab (.value (.concreteFn 2)) (.concreteFn 2)
        sampleAst [] false sampleState =
      invokeOutcome (sampleCollab.evaluateDirectCall false
        (.value (.concreteFn 2)) (.concreteFn 2) .undef [] false
        { sampleState with currentLocation := some 1 }) := by
  obtain ⟨h1, h2, h3⟩ := EvaluateCall_this_resolution sampleCollab sampleAst false
  refine ⟨?_, ?_, ?_⟩
  · simpa [sampleCollab] using
      h1 ⟨.obj (.concreteData 3), "m", false⟩ (.concreteData 3) (.concreteFn 2)
        [] sampleState rfl rfl
  · simpa [sampleCollab] using
      h2 ⟨.env ⟨0, .undef⟩, "g", false⟩ ⟨0, .undef⟩ (.concreteFn 2) []
        sampleState rfl rfl (by intro h; simp at h)
  · simpa [sampleCollab] using
      h3 (.concreteFn 2) (.concreteFn 2) [] sampleState rfl

/-- C9: every language-level completion thrown by the concrete invocation
collaborator is returned unchanged as `EvaluateCall`'s completion, while a
non-Completion host exception is re-raised as a fatal host error rather than
converted into a completion. -/
theorem EvaluateCall_propagates_thrown_completions (C : Collab)
    (ast : CallAst) (strict : Bool) (v0 func : Value) (argList : List Value)
    (s : RealmState) (hfunc : func.isAbstract = false) :
    (∀ (c : Completion) (s2 : RealmState),
      C.evaluateDirectCall strict (.value v0) func Value.undef argList
          (C.isInTailPosition ast.toNode) { s with currentLocation := ast.loc } =
        (.throwsCompletion c, s2) →
      EvaluateCall C (.value v0) func ast argList strict s = (.ok (.comp c), s2))
  ∧ (∀ (e : HostErr) (s2 : RealmState),
      C.evaluateDirectCall strict (.value v0) func Value.undef argList
          (C.isInTailPosition ast.toNode) { s with currentLocation := ast.loc } =
        (.throwsHost e, s2) →
      EvaluateCall C (.value v0) func ast argList strict s = (.fatal e, s2)) := by
  constructor
  · intro c s2 hinv
    cases func with
    | abstract k ty args => simp [Value.isAbstract] at hfunc
    | _ =>
        simp [EvaluateCall, isDirectEvalRef, EvaluateCallOrdinary, hinv,
          invokeOutcome]
  · intro e s2 hinv
    cases func with
    | abstract k ty args => simp [Value.isAbstract] at hfunc
    | _ =>
        simp [EvaluateCall, isDirectEvalRef, EvaluateCallOrdinary, hinv,
          invokeOutcome]

/-- A collaborator bundle whose concrete invocation throws: function 20
throws the language-level throw completion carrying datum 13, function 21
throws a non-Completion host exception 77, and every other function returns
normally. -/
def throwingCollab : Collab :=
  { sampleCollab with
    evaluateDirectCall := fun _ _ func _ _ _ s =>
      match func with
      | .concreteFn 20 => (.throwsCompletion (.throwC (.concreteData 13)), s)
      | .concreteFn 21 => (.throwsHost (.hostExn 77), s)
      | _ => (.returns (.val (.concreteData 42)), s) }

/-- C9 witness: a thrown throw-completion is returned as the completion, and
a thrown host exception is re-raised as a fatal error. -/
theorem EvaluateCall_propagates_thrown_completions_witness :
    EvaluateCall throwingCollab (.value (.concreteFn 20)) (.concreteFn 20)
        sampleAst [] false sampleState =
      (.ok (.comp (.throwC (.concreteData 13))),
       { sampleState with currentLocation := some 1 })
  ∧ EvaluateCall throwingCollab (.value (.concreteFn 21)) (.concreteFn 21)
        sampleAst [] false sampleState =
      (.fatal (.hostExn 77), { sampleState with currentLocation := some 1 }) := by
  obtain ⟨h1, h2⟩ := EvaluateCall_propagates_thrown_completions throwingCollab
    sampleAst false (.concreteFn 20) (.concreteFn 20) [] sampleState rfl
  obtain ⟨h3, h4⟩ := EvaluateCall_propagates_thrown_completions throwingCollab
    sampleAst false (.concreteFn 21) (.concreteFn 21) [] sampleState rfl
  exact ⟨h1 (.throwC (.concreteData 13))
      { sampleState with currentLocation := some 1 } rfl,
    h4 (.hostExn 77) { sampleState with currentLocation := some 1 } rfl⟩

/-- C10: a conditional callee is dispatched to the conditional-call join with
the `ref` argument discarded — the result is the same for every `ref`,
including property references — and each arm call passes the arm value itself
as `ref`, so a concrete arm is invoked with this-value undefined. -/
theorem conditional_call_this_undefined (C : Collab) (ast : CallAst)
    (strict : Bool) (argVals : List Value) :
    (∀ (ref : RefOrValue) (ty : Ty) (args : List Value) (s : RealmState),
      typeCompatFunction ty = true →
      EvaluateCall C ref (.abstract (some "conditional") ty args) ast argVals
          strict s =
        callBothFunctionsAndJoinTheirEffects C args ast argVals strict s)
  ∧ (∀ (f1 : Value) (s0 : RealmState), f1.isAbstract = false →
      EvaluateCall C (.value f1) f1 ast argVals strict s0 =
        invokeOutcome (C.evaluateDirectCall strict (.value f1) f1 Value.undef
          argVals (C.isInTailPosition ast.toNode)
          { s0 with currentLocation := ast.loc })) := by
  constructor
  · intro ref ty args s hty
    simp [EvaluateCall, hty]
  · intro f1 s0 habs
    cases f1 with
    | abstract k ty args => simp [Value.isAbstract] at habs
    | _ => simp [EvaluateCall, isDirectEvalRef, EvaluateCallOrdinary]

/-- C10 witness: the conditional sample callee yields the same result through
a property reference (whose base would otherwise become the this-value) as
through a plain value ref, and a concrete arm invoked as both ref and func
goes to the invocation collaborator with this-value undefined. -/
theorem conditional_call_this_undefined_witness :
    EvaluateCall sampleCollab
        (.reference ⟨.obj (.concreteData 3), "m", false⟩) condFn sampleAst []
        false sampleState =
      callBothFunctionsAndJoinTheirEffects sampleCollab
        [sampleCond, .concreteFn 10, .concreteFn 11] sampleAst [] false
        sampleState
  ∧ EvaluateCall sampleCollab (.value (.concreteFn 10)) (.concreteFn 10)
        sampleAst [] false sampleState =
      invokeOutcome (sampleCollab.evaluateDirectCall false
        (.value (.concreteFn 10)) (.concreteFn 10) .undef [] false
        { sampleState with currentLocation := some 1 }) := by
  obtain ⟨h1, h2⟩ := conditional_call_this_undefined sampleCollab sampleAst
    false []
  refine ⟨?_, ?_⟩
  · simpa [condFn] using
      h1 (.reference ⟨.obj (.concreteData 3), "m", false⟩) .functionT
        [sampleCond, .concreteFn 10, .concreteFn 11] sampleState rfl
  · simpa [sampleCollab] using h2 (.concreteFn 10) sampleState rfl

/-- Registering a fork on the pending-completion machinery touches only the
saved completion and the open-fork list, never the ambient effect trackers. -/
theorem composeWithSavedCompletion_trackers (c : Completion) (s : RealmState) :
    (composeWithSavedCompletion c s).2.generator = s.generator
  ∧ (composeWithSavedCompletion c s).2.modifiedBindings = s.modifiedBindings
  ∧ (composeWithSavedCompletion c s).2.modifiedProperties = s.modifiedProperties
  ∧ (composeWithSavedCompletion c s).2.createdObjects = s.createdObjects := by
  cases h : s.savedCompletion <;>
    simp [composeWithSavedCompletion, h, captureEffects]

/-- Accessor reduction for effects records. -/
theorem Effects.result_mk (r g b p c) : (Effects.mk r g b p c).result = r := rfl

/-- Accessor reduction for effects records. -/
theorem Effects.generator_mk (r g b p c) :
    (Effects.mk r g b p c).generator = g := rfl

/-- Accessor reduction for effects records. -/
theorem Effects.modifiedBindings_mk (r g b p c) :
    (Effects.mk r g b p c).modifiedBindings = b := rfl

/-- Accessor reduction for effects records. -/
theorem Effects.modifiedProperties_mk (r g b p c) :
    (Effects.mk r g b p c).modifiedProperties = p := rfl

/-- Accessor reduction for effects records. -/
theorem Effects.createdObjects_mk (r g b p c) :
    (Effects.mk r g b p c).createdObjects = c := rfl

/-- Applying an effects record appends its created objects to the ambient
created-object tracker. -/
theorem applyEffects_createdObjects (e : Effects) (s : RealmState) :
    (applyEffects e s).createdObjects = s.createdObjects ++ e.createdObjects := rfl

/-- C2: for a conditional callee, each arm's call is evaluated in isolation —
both effect captures run the arm against the ambient state with fresh
trackers (`clearTrackers s`), so neither run observes the other — and the
merged effects are applied to ambient state exactly once, after the join (the
final state is `applyEffects` of the joined effects on a state whose trackers
are still those of `s`).  Moreover the effects of a discarded branch never
become visible: when the first arm completes abruptly and the second
normally, an object the abrupt arm created (absent from the ambient state and
from the normal arm's run) is not in the final ambient created-object
tracker. -/
theorem callBoth_isolated_apply_once (C : Collab) (ast : CallAst)
    (strict : Bool) (argVals : List Value) (cond f1 f2 : Value)
    (s : RealmState) (c1 c2 : CompOrValue) (u1 u2 : RealmState) (J : Effects)
    (hcond : cond.isAbstract = true) (hcondTy : cond.getType = .booleanT)
    (hf1 : typeCompatFunction f1.getType = true)
    (hf2 : typeCompatFunction f2.getType = true)
    (hrun1 : EvaluateCall C (.value f1) f1 ast argVals strict (clearTrackers s)
      = (.ok c1, u1))
    (hrun2 : EvaluateCall C (.value f2) f2 ast argVals strict (clearTrackers s)
      = (.ok c2, u2))
    (hJ : J = joinForkOrChoose cond
      (.mk (toCompletion c1) u1.generator u1.modifiedBindings
        u1.modifiedProperties u1.createdObjects)
      (.mk (toCompletion c2) u2.generator u2.modifiedBindings
        u2.modifiedProperties u2.createdObjects)) :
    (callBothFunctionsAndJoinTheirEffects C [cond, f1, f2] ast argVals strict s
      = if J.result.isPossiblyNormal then
          (.ok (.val (composeWithSavedCompletion J.result s).1),
           applyEffects J (composeWithSavedCompletion J.result s).2)
        else
          match J.result with
          | .simpleNormal v => (.ok (.val v), applyEffects J s)
          | c =>
              if c.isAbrupt then (.ok (.comp c), applyEffects J s)
              else (.fatal .invariantFail, applyEffects J s))
  ∧ ((toCompletion c1).isAbrupt = true → (toCompletion c2).isAbrupt = false →
      ∀ o : Nat, o ∉ s.createdObjects → o ∉ u2.createdObjects →
        o ∉ ((callBothFunctionsAndJoinTheirEffects C [cond, f1, f2] ast argVals
            strict s).2).createdObjects) := by
  have key : callBothFunctionsAndJoinTheirEffects C [cond, f1, f2] ast argVals
      strict s
      = if J.result.isPossiblyNormal then
          (.ok (.val (composeWithSavedCompletion J.result s).1),
           applyEffects J (composeWithSavedCompletion J.result s).2)
        else
          match J.result with
          | .simpleNormal v => (.ok (.val v), applyEffects J s)
          | c =>
              if c.isAbrupt then (.ok (.comp c), applyEffects J s)
              else (.fatal .invariantFail, applyEffects J s) := by
    subst hJ
    simp only [callBothFunctionsAndJoinTheirEffects, hcond, hcondTy, hf1, hf2,
      evaluateForEffects, hrun1, hrun2, Effects.result_mk, Effects.generator_mk,
      Effects.modifiedBindings_mk, Effects.modifiedProperties_mk,
      Effects.createdObjects_mk, beq_self_eq_true, Bool.true_and, Bool.and_self,
      ↓reduceIte]
  refine ⟨key, ?_⟩
  intro h1 h2 o ho1 ho2
  have hJr : J = .mk
      (.possiblyNormal (toCompletion c2).value
        (.mk (toCompletion c2) u2.generator u2.modifiedBindings
          u2.modifiedProperties u2.createdObjects)
        cond true (toCompletion c1)
        (.mk (toCompletion c1) u1.generator u1.modifiedBindings
          u1.modifiedProperties u1.createdObjects))
      u2.generator u2.modifiedBindings u2.modifiedProperties
      u2.createdObjects := by
    rw [hJ]
    simp [joinForkOrChoose, Effects.result_mk, Effects.generator_mk,
      Effects.modifiedBindings_mk, Effects.modifiedProperties_mk,
      Effects.createdObjects_mk, h1, h2]
  rw [key, hJr]
  simp only [Effects.result_mk, Completion.isPossiblyNormal, ↓reduceIte,
    applyEffects_createdObjects, Effects.createdObjects_mk]
  rw [(composeWithSavedCompletion_trackers _ s).2.2.2]
  simp [ho1, ho2]

/-- C2 witness: on the sample conditional call both arms are captured from
the ambient state, joined, and the joined effects (a single conditional
residual statement) are applied once; both arms return 42, so the join is
that value. -/
theorem callBoth_isolated_apply_once_witness :
    callBothFunctionsAndJoinTheirEffects sampleCollab
      [sampleCond, .concreteFn 10, .concreteFn 11] sampleAst [] false
      sampleState =
      (.ok (.val (.concreteData 42)),
       { sampleState with generator := [.condStmt sampleCond [] []] }) := by
  have h := (callBoth_isolated_apply_once sampleCollab sampleAst false []
    sampleCond (.concreteFn 10) (.concreteFn 11) sampleState
    (.val (.concreteData 42)) (.val (.concreteData 42))
    { sampleState with currentLocation := some 1 }
    { sampleState with currentLocation := some 1 }
    (joinForkOrChoose sampleCond
      (.mk (.simpleNormal (.concreteData 42)) [] [] [] [])
      (.mk (.simpleNormal (.concreteData 42)) [] [] [] []))
    rfl rfl rfl rfl rfl rfl rfl).1
  rw [h]
  rfl

/-- C6: the conditional-call dispatch is independent of the order in which
the two branches are evaluated — capturing the `g` arm's effects before the
`f` arm's (while the join still pairs the condition with the `f` effects
first) yields the same completion, the same merged effects and the same final
state, whenever neither branch evaluation raises a host failure.  Isolation
makes this hold: each capture runs against the same ambient state. -/
theorem callBoth_order_independent (C : Collab) (ast : CallAst)
    (strict : Bool) (argVals : List Value) (cond f1 f2 : Value)
    (rest : List Value) (s : RealmState) (c1 c2 : CompOrValue)
    (u1 u2 : RealmState)
    (hrun1 : EvaluateCall C (.value f1) f1 ast argVals strict (clearTrackers s)
      = (.ok c1, u1))
    (hrun2 : EvaluateCall C (.value f2) f2 ast argVals strict (clearTrackers s)
      = (.ok c2, u2)) :
    callBothFunctionsAndJoinTheirEffectsSwapped C (cond :: f1 :: f2 :: rest)
        ast argVals strict s
      = callBothFunctionsAndJoinTheirEffects C (cond :: f1 :: f2 :: rest)
        ast argVals strict s := by
  by_cases hinv : (cond.isAbstract && cond.getType == Ty.booleanT
      && typeCompatFunction f1.getType && typeCompatFunction f2.getType) = true
  · simp only [callBothFunctionsAndJoinTheirEffects,
      callBothFunctionsAndJoinTheirEffectsSwapped, hinv, ↓reduceIte,
      evaluateForEffects, hrun1, hrun2]
  · simp only [callBothFunctionsAndJoinTheirEffects,
      callBothFunctionsAndJoinTheirEffectsSwapped, hinv, Bool.false_eq_true,
      ↓reduceIte]

/-- C6 witness: on the sample conditional call, evaluating the arms in either
order yields the same joined result. -/
theorem callBoth_order_independent_witness :
    callBothFunctionsAndJoinTheirEffectsSwapped sampleCollab
        [sampleCond, .concreteFn 10, .concreteFn 11] sampleAst [] false
        sampleState
      = callBothFunctionsAndJoinTheirEffects sampleCollab
        [sampleCond, .concreteFn 10, .concreteFn 11] sampleAst [] false
        sampleState :=
  callBoth_order_independent sampleCollab sampleAst false [] sampleCond
    (.concreteFn 10) (.concreteFn 11) [] sampleState
    (.val (.concreteData 42)) (.val (.concreteData 42))
    { sampleState with currentLocation := some 1 }
    { sampleState with currentLocation := some 1 } rfl rfl

/-- Argument loop: a prefix of arguments that all evaluate, without touching
the state, to plain values with no residual statements is consumed by
accumulating its nodes and values, leaving the rest of the loop to run. -/
theorem evalArgs_values_front (C : Collab) (strict : Bool) (s : RealmState)
    (w : Node → Value) (nf : Node → Node) :
    ∀ pre : List Node,
      (∀ a ∈ pre, C.peArg a strict s = (.value (w a), nf a, [], s)) →
      ∀ (rest : List Node) (os : List Stmt) (ra : List Node) (av : List Value)
        (cp : Option Completion),
        evalArgs C strict (pre ++ rest) os ra av cp s =
          evalArgs C strict rest os (ra ++ pre.map nf) (av ++ pre.map w) cp s := by
  intro pre
  induction pre with
  | nil => intro _ rest os ra av cp; simp
  | cons a tail ih =>
      intro h rest os ra av cp
      have ha := h a (by simp)
      have htail : ∀ b ∈ tail, C.peArg b strict s = (.value (w b), nf b, [], s) :=
        fun b hb => h b (by simp [hb])
      simp only [List.cons_append, evalArgs, ha, List.append_eq]
      rw [ih htail]
      simp

/-- C3: abrupt completions before the call short-circuit left to right.
If the callee's partial evaluation is abrupt, the completion is returned
immediately with the residual callee code — no argument is evaluated and no
call is attempted (the result is fixed for every argument list and every
collaborator behaviour beyond the callee's).  If an argument's partial
evaluation is abrupt, the abrupt completion is returned immediately — taken
directly when no fork is open, composed via the stop-capture join when the
callee left a pending fork — with a residual call node containing only the
arguments evaluated so far, and the remaining arguments are never evaluated
(the result is fixed for every behaviour on the remaining arguments). -/
theorem evalCallExpression_short_circuit (C : Collab) (strict : Bool) :
    (∀ (ast : CallAst) (s : RealmState) (c : Completion) (calleeAst : Node)
        (cstmts : List Stmt) (s1 : RealmState),
      C.peCallee ast.callee strict s = (.completion c, calleeAst, cstmts, s1) →
      c.isAbrupt = true →
      ∀ args2 : List Node,
        evalCallExpression C { ast with arguments := args2 } strict s =
          (.ok (.comp c, calleeAst, cstmts), s1))
  ∧ (∀ (ast : CallAst) (s : RealmState) (vf : Value) (calleeAst : Node)
        (cstmts : List Stmt) (pre : List Node) (bad : Node) (post : List Node)
        (w : Node → Value) (nf : Node → Node) (cbad : Completion)
        (badAst : Node) (bstmts : List Stmt) (sb : RealmState),
      ast.arguments = pre ++ bad :: post →
      C.peCallee ast.callee strict s = (.value vf, calleeAst, cstmts, s) →
      (∀ a ∈ pre, C.peArg a strict s = (.value (w a), nf a, [], s)) →
      C.peArg bad strict s = (.completion cbad, badAst, bstmts, sb) →
      cbad.isAbrupt = true →
      evalCallExpression C ast strict s =
        (.ok (.comp cbad, .call calleeAst (pre.map nf ++ [badAst]),
          cstmts ++ bstmts), sb))
  ∧ (∀ (ast : CallAst) (s : RealmState) (pn : Completion) (calleeAst : Node)
        (cstmts : List Stmt) (pre : List Node) (bad : Node) (post : List Node)
        (w : Node → Value) (nf : Node → Node) (cbad : Completion)
        (badAst : Node) (bstmts : List Stmt) (sb : RealmState),
      ast.arguments = pre ++ bad :: post →
      C.peCallee ast.callee strict s = (.completion pn, calleeAst, cstmts, s) →
      pn.isAbrupt = false → pn.isPossiblyNormal = true →
      (∀ a ∈ pre, C.peArg a strict s = (.value (w a), nf a, [], s)) →
      C.peArg bad strict s = (.completion cbad, badAst, bstmts, sb) →
      cbad.isAbrupt = true →
      evalCallExpression C ast strict s =
        (.ok (.comp (stopEffectCaptureJoinApplyAndReturnCompletion pn cbad sb).1,
          .call calleeAst (pre.map nf ++ [badAst]), cstmts ++ bstmts),
         (stopEffectCaptureJoinApplyAndReturnCompletion pn cbad sb).2)) := by
  refine ⟨?_, ?_, ?_⟩
  · intro ast s c calleeAst cstmts s1 hcallee habrupt args2
    simp only [evalCallExpression]
    rw [show ({ ast with arguments := args2 } : CallAst).callee = ast.callee
      from rfl]
    simp [hcallee, habrupt]
  · intro ast s vf calleeAst cstmts pre bad post w nf cbad badAst bstmts sb
      hsplit hcallee hpre hbad hcbad
    simp only [evalCallExpression, hcallee, evalCallRest, getValue, hsplit]
    rw [evalArgs_values_front C strict s w nf pre hpre (bad :: post) cstmts
      [] [] none]
    simp only [evalArgs, hbad, List.nil_append]
    simp [hcbad]
  · intro ast s pn calleeAst cstmts pre bad post w nf cbad badAst bstmts sb
      hsplit hcallee hpnA hpnP hpre hbad hcbad
    simp only [evalCallExpression, hcallee, hpnA, Bool.false_eq_true,
      ↓reduceIte, hpnP, evalCallRest, getValue, hsplit]
    rw [evalArgs_values_front C strict s w nf pre hpre (bad :: post) cstmts
      [] [] (some pn)]
    simp only [evalArgs, hbad, List.nil_append]
    rcases hstop : stopEffectCaptureJoinApplyAndReturnCompletion pn cbad sb
      with ⟨cx, sx⟩
    simp [hcbad, hpnP, hstop]

/-- A collaborator bundle whose callee evaluation is abrupt (a thrown 50). -/
def abruptCalleeCollab : Collab :=
  { sampleCollab with
    peCallee := fun n _ s => (.completion (.throwC (.concreteData 50)), n, [], s) }

/-- A collaborator bundle where evaluating the argument node `2` throws 99
with one residual statement, while other arguments evaluate to 7. -/
def abruptArgCollab : Collab :=
  { sampleCollab with
    peArg := fun n _ s =>
      match n with
      | .lit 2 => (.completion (.throwC (.concreteData 99)), n, [.other 1], s)
      | _ => (.value (.concreteData 7), n, [], s) }

/-- A sample call expression `f(1, 2, 3)` at source location 1. -/
def sampleAst3 : CallAst := ⟨.ident "f", [.lit 1, .lit 2, .lit 3], some 1⟩

/-- C3 witness: an abrupt callee propagates with the residual callee node and
no argument evaluation; in `f(1, 2, 3)` where evaluating `2` throws, the
throw is returned with a residual call node containing only `1` and `2`, the
residual statement of `2`, and argument `3` is never evaluated. -/
theorem evalCallExpression_short_circuit_witness :
    evalCallExpression abruptCalleeCollab sampleAst3 false sampleState =
      (.ok (.comp (.throwC (.concreteData 50)), .ident "f", []), sampleState)
  ∧ evalCallExpression abruptArgCollab sampleAst3 false sampleState =
      (.ok (.comp (.throwC (.concreteData 99)),
        .call (.ident "f") [.lit 1, .lit 2], [.other 1]), sampleState) := by
  obtain ⟨h1, h2, h3⟩ := evalCallExpression_short_circuit abruptArgCollab false
  obtain ⟨g1, g2, g3⟩ := evalCallExpression_short_circuit abruptCalleeCollab false
  constructor
  · have := g1 sampleAst3 sampleState (.throwC (.concreteData 50)) (.ident "f")
      [] sampleState rfl rfl [.lit 1, .lit 2, .lit 3]
    simpa [sampleAst3] using this
  · have := h2 sampleAst3 sampleState (.concreteFn 0) (.ident "f") [] [.lit 1]
      (.lit 2) [.lit 3] (fun _ => .concreteData 7) (fun a => a)
      (.throwC (.concreteData 99)) (.lit 2) [.other 1] sampleState rfl rfl
      (by intro a ha; simp at ha; subst ha; rfl) rfl rfl
    simpa using this

/-- C8 (amended): the call-site location recorded on the context via
`setNextExecutionContextLocation` before delegating to `EvaluateCall` is
restored on every exit path of the delegation — normal, abrupt and fatal —
so `nextContextLocation` after evaluation equals its value at the point the
arguments finished.  (The separate `currentLocation` field written inside
`EvaluateCall` is not restored; see the counterexample.) -/
theorem nextContextLocation_restored (C : Collab) (ast : CallAst)
    (strict : Bool) (completion : Option Completion) (refv : RefOrValue)
    (calleeAst : Node) (calleeStmts : List Stmt) (s : RealmState)
    (cp1 : Option Completion) (ra : List Node) (av : List Value)
    (os : List Stmt) (s2 : RealmState)
    (hargs : evalArgs C strict ast.arguments calleeStmts [] [] completion s =
      .done cp1 ra av os s2) :
    (evalCallRest C ast strict completion refv calleeAst calleeStmts
      s).2.nextContextLocation = s2.nextContextLocation := by
  simp only [evalCallRest, hargs]

/-- C8 witness for the amended theorem: on the sample run the recorded
location is restored to its entry value 5. -/
theorem nextContextLocation_restored_witness :
    (evalCallRest sampleCollab sampleAst false none (.value (.concreteFn 0))
      (.ident "f") [] sampleState).2.nextContextLocation = some 5 := by
  have h := nextContextLocation_restored sampleCollab sampleAst false none
    (.value (.concreteFn 0)) (.ident "f") [] sampleState none [.lit 1]
    [.concreteData 7] [] sampleState rfl
  simpa [sampleState] using h

/-- C8 counterexample: after a fully concrete sample evaluation the context's
`currentLocation` field differs from its value on entry — `EvaluateCall`
records the call-site location on it and no exit path restores it, so the
claim that all of the context's location fields return to their entry values
is false. -/
theorem currentLocation_not_restored :
    (evalCallExpression sampleCollab sampleAst false
      sampleState).2.currentLocation ≠ sampleState.currentLocation := by
  decide

end PrepackCall
